import Mathlib

/-!
Verification development for the OTLP reporting pipeline of the
otel-profiling-agent repository.

The development shallowly embeds two source files:
 * `reporter/otlp_reporter.go` — the OTLP reporter (ingestion caches and the
   profile snapshot encoder `getProfile`);
 * the `symuploader` package (`ParcaSymbolUploader`) — the symbol upload
   manager with its retry and singleflight caches.

Modelling conventions:
 * Go maps and the bounded LRU caches are modelled as association lists
   (`List (κ × ν)`); LRU capacity/eviction and recency bookkeeping are not
   modelled (the claims under verification do not depend on eviction).
   `Get`/`Peek` are both modelled by `lookupA` and `Add` by `updateA`
   (replace-or-append).
 * The Go maps `stringMap : map[string]uint32` and `funcMap : map[funcInfo]uint64`
   assign `len(map)` as the value on every miss and are flattened at the end of
   `getProfile` into arrays with `table[idx] = key`.  They are therefore modelled
   directly as the flattened list, whose positions are the assigned indices; the
   Go lookup-or-insert is `lookupOrAppend`.
 * Machine integers are modelled as `Nat` (identifiers, indices, timestamps)
   or `Int` (signed wire fields); the only arithmetic where Go overflow could
   matter (`sample.count += uint32(count)`) is taken modulo `2^32`.
 * Time is modelled as an explicit `now : Nat` parameter, in nanoseconds.
 * Goroutines are modelled by making the steps of an upload attempt explicit
   functions on the uploader state; fallible remote calls are modelled by
   passing the remote response as a parameter.
-/

namespace OtelAgent

/-! # Definitions -/

/-! ## Association list helpers (model of Go maps / LRU caches) -/

/-- Lookup in an association list (model of Go map indexing / LRU `Get`/`Peek`). -/
def lookupA {κ ν : Type} [DecidableEq κ] : List (κ × ν) → κ → Option ν
  | [], _ => none
  | e :: rest, k => if e.1 = k then some e.2 else lookupA rest k

/-- Replace-or-append update (model of Go map assignment / LRU `Add`). -/
def updateA {κ ν : Type} [DecidableEq κ] : List (κ × ν) → κ → ν → List (κ × ν)
  | [], k, v => [(k, v)]
  | e :: rest, k, v => if e.1 = k then (k, v) :: rest else e :: updateA rest k v

/-- Position of the first occurrence of `a` in `l` (the index the Go map
holds for key `a`), `none` when absent. -/
def posOf {α : Type} [DecidableEq α] : List α → α → Option Nat
  | [], _ => none
  | x :: rest, a => if x = a then some 0 else (posOf rest a).map (· + 1)

/-- Lookup-or-append: the Go `if idx, exists := m[v] { return idx };
m[v] = len(m)` pattern on the flattened-table model. -/
def lookupOrAppend {α : Type} [DecidableEq α] (l : List α) (a : α) : Nat × List α :=
  match posOf l a with
  | some i => (i, l)
  | none => (l.length, l ++ [a])

/-- `l'` is `l` with zero or more elements appended (how every dedup table
evolves during one encoding pass). -/
def ExtendsL {α : Type} (l l' : List α) : Prop := ∃ t, l' = l ++ t

/-! ## Symbol uploader model (`symuploader` package, `ParcaSymbolUploader`)

The two caches `retry` and `singleflight` are `lru.SyncedLRU[libpf.FileID, bool]`
values; entries may carry a lifetime (`AddWithLifetime`), after which `Get`
treats them as absent.  `FileID` is modelled as `Nat`. -/

/-- An LRU cache entry: value plus optional absolute expiry time. -/
structure LruEntry (ν : Type) where
  value : ν
  expiry : Option Nat
deriving DecidableEq, Repr

/-- Model of `lru.SyncedLRU.Get` at time `now`: an entry past its lifetime is
treated as missing (`ok = false` in Go, `none` here). -/
def lruGet {ν : Type} (l : List (Nat × LruEntry ν)) (now k : Nat) : Option ν :=
  match lookupA l k with
  | some e =>
      match e.expiry with
      | none => some e.value
      | some t => if now < t then some e.value else none
  | none => none

/-- Model of `lru.SyncedLRU.Add` (no lifetime: the entry never expires). -/
def lruAdd {ν : Type} (l : List (Nat × LruEntry ν)) (k : Nat) (v : ν) :
    List (Nat × LruEntry ν) :=
  updateA l k ⟨v, none⟩

/-- Model of `lru.SyncedLRU.AddWithLifetime`: the entry expires at `now + lifetime`. -/
def lruAddWithLifetime {ν : Type} (l : List (Nat × LruEntry ν)) (k : Nat) (v : ν)
    (now lifetime : Nat) : List (Nat × LruEntry ν) :=
  updateA l k ⟨v, some (now + lifetime)⟩

/-- State of the `ParcaSymbolUploader`: the `retry` cooldown cache and the
`singleflight` in-flight-marker cache (both keyed by FileID). -/
structure UploaderState where
  retry : List (Nat × LruEntry Bool)
  singleflight : List (Nat × LruEntry Bool)
deriving DecidableEq, Repr

/-- The uploader state with both caches empty (freshly constructed). -/
def uploaderEmpty : UploaderState := ⟨[], []⟩

/-- `ReasonUploadInProgress` constant from the `symuploader` package. -/
def ReasonUploadInProgress : String :=
  "A previous upload is still in-progress and not stale yet (only stale uploads can be retried)."

/-- `5 * time.Minute` in nanoseconds. -/
def fiveMinutes : Nat := 5 * 60 * 1000000000

/-- Result of a call to `Upload`: either it returned without starting an
attempt (no remote call is made), or it marked the FileID in flight and
spawned an attempt (whose first action is the `ShouldInitiateUpload`
authorize remote call). -/
inductive UploadCallResult where
  | noop
  | started
deriving DecidableEq, Repr

/-- Model of `ParcaSymbolUploader.Upload` up to spawning the attempt goroutine:

```go
if buildID == "" { return }
retry, ok := u.retry.Get(fileID)
if ok && !retry { return }
singleflight, ok := u.singleflight.Get(fileID)
if ok || singleflight { return }
u.singleflight.Add(fileID, true)
go func() { ... }()
```
-/
def Upload (st : UploaderState) (now fileID : Nat) (buildID : String) :
    UploaderState × UploadCallResult :=
  if buildID = "" then (st, .noop)
  else
    match lruGet st.retry now fileID with
    | some false => (st, .noop)
    | _ =>
      let sf := lruGet st.singleflight now fileID
      if sf.isSome ∨ sf.getD false then (st, .noop)
      else ({ st with singleflight := lruAdd st.singleflight fileID true }, .started)

/-- Model of the unconditional clearing of the in-flight marker when an upload
attempt concludes, by any exit path (`defer u.singleflight.Add(fileID, false)`,
present both in the goroutine spawned by `Upload` and at the top of
`attemptUpload`). -/
def concludeAttempt (st : UploaderState) (fileID : Nat) : UploaderState :=
  { st with singleflight := lruAdd st.singleflight fileID false }

/-- The authorize (`ShouldInitiateUpload`) remote response. -/
structure ShouldInitiateUploadResponse where
  shouldInitiateUpload : Bool
  reason : String
deriving DecidableEq, Repr

/-- What `attemptUpload` did right after the authorize response. -/
inductive AuthStep where
  /-- denial with `ReasonUploadInProgress`: cooldown entry recorded, attempt over -/
  | recordedCooldown
  /-- any other denial: durable no-retry entry recorded, attempt over -/
  | recordedNoRetry
  /-- upload authorized: the attempt continues to the transfer phase -/
  | proceed
deriving DecidableEq, Repr

/-- Model of the authorize step of `ParcaSymbolUploader.attemptUpload`
(the code directly after the `ShouldInitiateUpload` call returns without
error):

```go
if !shouldInitiateUploadResp.ShouldInitiateUpload {
    if shouldInitiateUploadResp.Reason == ReasonUploadInProgress {
        u.retry.AddWithLifetime(fileID, false, 5*time.Minute)
        return nil
    }
    u.retry.Add(fileID, false)
    return nil
}
```

When the attempt ends here no further remote call of the attempt is made
(`AuthStep.proceed` is returned exactly when the code falls through to the
materialize/transfer phase). -/
def attemptUploadAuthorize (st : UploaderState) (now fileID : Nat)
    (resp : ShouldInitiateUploadResponse) : UploaderState × AuthStep :=
  if ¬ resp.shouldInitiateUpload then
    if resp.reason = ReasonUploadInProgress then
      ({ st with retry := lruAddWithLifetime st.retry fileID false now fiveMinutes },
        .recordedCooldown)
    else
      ({ st with retry := lruAdd st.retry fileID false }, .recordedNoRetry)
  else (st, .proceed)

/-! ## OTLP reporter data model (`reporter/otlp_reporter.go`)

Identifiers: `TraceHash`, `FileID`, `AddressOrLineno` are modelled as `Nat`;
a `FrameID` is reconstructed from a FileID and an address
(`libpf.NewFrameID(fileID, lineno)`) and modelled as the pair. -/

/-- `libpf.FrameType`: native, kernel, abort, or an interpreted kind
(identified by its name, e.g. "python"). -/
inductive FrameType where
  | native
  | kernel
  | abort
  | interp (kindName : String)
deriving DecidableEq, Repr

/-- `libpf.FrameType.String()`. -/
def frameTypeString : FrameType → String
  | .native => "native"
  | .kernel => "kernel"
  | .abort => "abort"
  | .interp kindName => kindName

/-- `traceInfo`: static information about a trace.  The Go zero value has
empty slices and empty strings, which is the default here. -/
structure TraceInfo where
  files : List Nat := []
  linenos : List Nat := []
  frameTypes : List FrameType := []
  comm : String := ""
  podName : String := ""
  podNamespace : String := ""
  containerName : String := ""
  apmServiceName : String := ""
deriving DecidableEq, Repr, Inhabited

/-- `sample`: dynamic information about traces (occurrence timestamps in
seconds, accumulated count). -/
structure Sample where
  timestamps : List Nat
  count : Nat
deriving DecidableEq, Repr

/-- `execInfo`: executable metadata.  Go zero value: both fields empty. -/
structure ExecInfo where
  fileName : String := ""
  buildID : String := ""
deriving DecidableEq, Repr, Inhabited

/-- `sourceInfo`: maps a frame to its source origin. -/
structure SourceInfo where
  lineNumber : Nat
  functionOffset : Nat
  functionName : String
  filePath : String
deriving DecidableEq, Repr

/-- `funcInfo`: helper key for the function dedup table. -/
structure FuncInfo where
  name : String
  fileName : String
deriving DecidableEq, Repr

/-- The caches of `OTLPReporter` together with its configuration.
`samplesPerSecond` models `config.SamplesPerSecond()`. -/
structure ReporterState where
  traces : List (Nat × TraceInfo)
  samples : List (Nat × Sample)
  fallbackSymbols : List ((Nat × Nat) × String)
  executables : List (Nat × ExecInfo)
  frames : List (Nat × List (Nat × SourceInfo))
  otlpBuildIDMode : String
  samplesPerSecond : Nat
deriving DecidableEq, Repr

/-! ## Ingestion API -/

/-- `OTLPReporter.ReportFramesForTrace`: upserts the shape fields of the
trace's `traceInfo`, preserving already-present label fields. -/
def ReportFramesForTrace (r : ReporterState) (hash : Nat)
    (files linenos : List Nat) (frameTypes : List FrameType) : ReporterState :=
  match lookupA r.traces hash with
  | some v =>
      let traces' := updateA r.traces hash
        { v with files := files, linenos := linenos, frameTypes := frameTypes }
      { r with traces := traces' }
  | none =>
      let traces' := updateA r.traces hash
        { files := files, linenos := linenos, frameTypes := frameTypes }
      { r with traces := traces' }

/-- `OTLPReporter.ReportCountForTrace`: upserts the label fields of the
trace's `traceInfo` (preserving already-present shape fields), and upserts the
sample counter (count accumulated modulo `2^32` as a Go `uint32`; the reported
`count` argument is a `uint16`, i.e. less than `2^16`; the timestamp is
appended). -/
def ReportCountForTrace (r : ReporterState) (traceHash timestamp count : Nat)
    (comm podName podNamespace containerName : String) : ReporterState :=
  let traces' :=
    match lookupA r.traces traceHash with
    | some v =>
        updateA r.traces traceHash
          { v with comm := comm, podName := podName, podNamespace := podNamespace,
                   containerName := containerName }
    | none =>
        updateA r.traces traceHash
          ({ comm := comm, podName := podName, podNamespace := podNamespace,
             containerName := containerName })
  let samples' :=
    match lookupA r.samples traceHash with
    | some v =>
        updateA r.samples traceHash
          ⟨v.timestamps ++ [timestamp], (v.count + count) % 4294967296⟩
    | none => updateA r.samples traceHash ⟨[timestamp], count⟩
  { r with traces := traces', samples := samples' }

/-- `OTLPReporter.ReportFallbackSymbol`: insert only if absent. -/
def ReportFallbackSymbol (r : ReporterState) (frameID : Nat × Nat)
    (symbol : String) : ReporterState :=
  match lookupA r.fallbackSymbols frameID with
  | some _ => r
  | none => { r with fallbackSymbols := updateA r.fallbackSymbols frameID symbol }

/-- `OTLPReporter.FrameMetadata`: caches per-(FileID, address) source
information; an empty incoming `filePath` is replaced by the already-stored
one when present. -/
def FrameMetadata (r : ReporterState) (fileID addressOrLine lineNumber
    functionOffset : Nat) (functionName filePath : String) : ReporterState :=
  match lookupA r.frames fileID with
  | some v =>
      let filePath' :=
        if filePath = "" then
          match lookupA v addressOrLine with
          | some s => s.filePath
          | none => filePath
        else filePath
      let frames' := updateA r.frames fileID
        (updateA v addressOrLine
          ⟨lineNumber, functionOffset, functionName, filePath'⟩)
      { r with frames := frames' }
  | none =>
      let frames' := updateA r.frames fileID
        [(addressOrLine, ⟨lineNumber, functionOffset, functionName, filePath⟩)]
      { r with frames := frames' }

/-- The file path currently stored for `(fileID, addr)` in the frames cache. -/
def storedFilePath (r : ReporterState) (fileID addr : Nat) : Option String :=
  (lookupA r.frames fileID).bind (fun v => (lookupA v addr).map SourceInfo.filePath)

/-! ## Dedup tables -/

/-- `getStringMapIndex` from `otlp_reporter.go` (on the flattened-table
model: position on hit, append on miss). -/
def getStringMapIndex (stringMap : List String) (value : String) :
    Nat × List String :=
  lookupOrAppend stringMap value

/-- `createFunctionEntry` from `otlp_reporter.go`. -/
def createFunctionEntry (funcMap : List FuncInfo) (name fileName : String) :
    Nat × List FuncInfo :=
  lookupOrAppend funcMap ⟨name, fileName⟩

/-! ## Profile wire structures (pprofextended subset used by the encoder)

Index-valued wire fields (`int64`/`uint64` in the proto) are modelled as
`Nat`; the signed duration/time fields as `Int`. -/

/-- `pprofextended.BuildIdKind` (proto enum; `BUILD_ID_LINKER` is the zero
value). -/
inductive BuildIdKind where
  | linker
  | binaryHash
deriving DecidableEq, Repr

/-- `pprofextended.ValueType` (string-table indices). -/
structure ValueType where
  type : Nat
  unit : Nat
deriving DecidableEq, Repr

/-- `pprofextended.Label` (string-table indices). -/
structure Label where
  key : Nat
  str : Nat
deriving DecidableEq, Repr

/-- `pprofextended.Line`: 1-based function-table reference plus source line. -/
structure Line where
  functionIndex : Nat
  line : Nat
deriving DecidableEq, Repr

/-- `pprofextended.Location` (fields the encoder fills in). -/
structure Location where
  typeIndex : Nat
  address : Nat
  line : List Line
  mappingIndex : Nat
deriving DecidableEq, Repr

/-- `pprofextended.Mapping` (fields the encoder fills in; `filename` and
`buildId` are string-table indices). -/
structure Mapping where
  fileOffset : Nat
  filename : Nat
  buildId : Nat
  buildIdKind : BuildIdKind
deriving DecidableEq, Repr

/-- `pprofextended.Function` (name and filename are string-table indices). -/
structure FunctionRec where
  name : Nat
  filename : Nat
deriving DecidableEq, Repr

/-- `pprofextended.Sample` (fields the encoder fills in). -/
structure ProfSample where
  locationsStartIndex : Nat
  stacktraceIdIndex : Nat
  timestamps : List Nat
  value : List Int
  label : List Label
  locationsLength : Nat
deriving DecidableEq, Repr

/-- `pprofextended.Profile` (fields the encoder fills in). -/
structure Profile where
  sampleType : List ValueType
  periodType : ValueType
  period : Nat
  sample : List ProfSample
  location : List Location
  mapping : List Mapping
  function : List FunctionRec
  stringTable : List String
  locationIndices : List Nat
  durationNanos : Int
  timeNanos : Int
deriving DecidableEq, Repr

/-! ## The snapshot encoder (`getProfile`) -/

/-- `libpf.FileID.StringNoQuotes` — an injective rendering of the identifier
(the concrete hex format is irrelevant to the encoder's logic). -/
def fileIDString (fid : Nat) : String := toString fid

/-- `libpf.TraceHash.StringNoQuotes`. -/
def traceHashString (h : Nat) : String := toString h

/-- One step of the running start/end timestamp tracking in `getProfile`:

```go
if ts < startTS || startTS == 0 {
    startTS = ts
    continue
}
if ts > endTS {
    endTS = ts
}
```
-/
def tsStep (acc : Nat × Nat) (ts : Nat) : Nat × Nat :=
  if ts < acc.1 ∨ acc.1 = 0 then (ts, acc.2)
  else if acc.2 < ts then (acc.1, ts)
  else acc

/-- Mutable state threaded through one encoding pass of `getProfile`
(the temporary dedup maps and the profile arrays built so far). -/
structure EncState where
  stringMap : List String
  funcMap : List FuncInfo
  fileIDtoMapping : List Nat
  frameIDtoFunction : List ((Nat × Nat) × Nat)
  mappings : List Mapping
  locations : List Location
  profSamples : List ProfSample
  locationIndex : Nat
  startTS : Nat
  endTS : Nat
deriving DecidableEq, Repr

/-- One conditional label block of `getTraceLabels` (key index, then value
index, then append). -/
def addLabel (acc : List Label × List String) (key value : String) :
    List Label × List String :=
  let kRes := getStringMapIndex acc.2 key
  let vRes := getStringMapIndex kRes.2 value
  (acc.1 ++ [⟨kRes.1, vRes.1⟩], vRes.2)

/-- `getTraceLabels`: up to five labels, each included only when the
corresponding `traceInfo` field is non-empty. -/
def getTraceLabels (stringMap : List String) (i : TraceInfo) :
    List Label × List String :=
  let acc0 := (([] : List Label), stringMap)
  let acc1 := if i.comm ≠ "" then addLabel acc0 "comm" i.comm else acc0
  let acc2 := if i.podName ≠ "" then addLabel acc1 "podName" i.podName else acc1
  let acc3 := if i.podNamespace ≠ "" then addLabel acc2 "podNamespace" i.podNamespace
    else acc2
  let acc4 := if i.containerName ≠ "" then addLabel acc3 "containerName" i.containerName
    else acc3
  let acc5 := if i.apmServiceName ≠ "" then addLabel acc4 "apmServiceName" i.apmServiceName
    else acc4
  acc5

/-- `getDummyMappingIndex`: deduplicated (per FileID) dummy mapping entry for
kernel and interpreted frames.  Returns the mapping index and the updated
`fileIDtoMapping`, string table and mapping array. -/
def getDummyMappingIndex (fileIDtoMapping : List Nat) (stringMap : List String)
    (mappings : List Mapping) (fid : Nat) :
    Nat × List Nat × List String × List Mapping :=
  match posOf fileIDtoMapping fid with
  | some tmpMappingIndex => (tmpMappingIndex, fileIDtoMapping, stringMap, mappings)
  | none =>
      let idx := fileIDtoMapping.length
      let fnRes := getStringMapIndex stringMap "DUMMY"
      let bRes := getStringMapIndex fnRes.2 (fileIDString fid)
      (idx, fileIDtoMapping ++ [fid], bRes.2,
        mappings ++ [⟨0, fnRes.1, bRes.1, .binaryHash⟩])

/-- Encoding of one frame of a trace: the `switch frameKind` body of
`getProfile`'s frame loop, producing the `Location` record and the updated
encoder state.  A frame is `(frameType, fileID, addressOrLineno)`. -/
def encodeLoc (r : ReporterState) (st : EncState) (fr : FrameType × Nat × Nat) :
    Location × EncState :=
  let frameKind := fr.1
  let fid := fr.2.1
  let lineno := fr.2.2
  let typeRes := getStringMapIndex st.stringMap (frameTypeString frameKind)
  let typeIdx := typeRes.1
  let st1 := { st with stringMap := typeRes.2 }
  match frameKind with
  | .native =>
      match posOf st1.fileIDtoMapping fid with
      | some tmpMappingIndex =>
          ({ typeIndex := typeIdx, address := lineno, line := [],
             mappingIndex := tmpMappingIndex + 1 }, st1)
      | none =>
          let idx := st1.fileIDtoMapping.length
          let execOpt := lookupA r.executables fid
          let execV := execOpt.getD {}
          let fileName := if execOpt.isSome then execV.fileName else "UNKNOWN"
          let bk : String × BuildIdKind :=
            if r.otlpBuildIDMode = "linker" then (execV.buildID, .linker)
            else if r.otlpBuildIDMode = "hash" then (fileIDString fid, .binaryHash)
            else ("UNKNOWN", .linker)
          let fnRes := getStringMapIndex st1.stringMap fileName
          let bRes := getStringMapIndex fnRes.2 bk.1
          ({ typeIndex := typeIdx, address := lineno, line := [],
             mappingIndex := idx + 1 },
           { st1 with stringMap := bRes.2,
                      fileIDtoMapping := st1.fileIDtoMapping ++ [fid],
                      mappings := st1.mappings ++ [⟨lineno, fnRes.1, bRes.1, bk.2⟩] })
  | .kernel =>
      let frameID := (fid, lineno)
      match lookupA st1.frameIDtoFunction frameID with
      | some tmpFunctionIndex =>
          let d := getDummyMappingIndex st1.fileIDtoMapping st1.stringMap st1.mappings fid
          ({ typeIndex := typeIdx, address := lineno,
             line := [⟨tmpFunctionIndex + 1, 0⟩], mappingIndex := d.1 + 1 },
           { st1 with stringMap := d.2.2.1, fileIDtoMapping := d.2.1,
                      mappings := d.2.2.2 })
      | none =>
          let symbol := (lookupA r.fallbackSymbols frameID).getD "UNKNOWN"
          let fRes := createFunctionEntry st1.funcMap symbol "vmlinux"
          let d := getDummyMappingIndex st1.fileIDtoMapping st1.stringMap st1.mappings fid
          ({ typeIndex := typeIdx, address := lineno,
             line := [⟨fRes.1 + 1, 0⟩], mappingIndex := d.1 + 1 },
           { st1 with funcMap := fRes.2, stringMap := d.2.2.1,
                      fileIDtoMapping := d.2.1, mappings := d.2.2.2 })
  | .abort =>
      ({ typeIndex := typeIdx, address := lineno, line := [], mappingIndex := 0 }, st1)
  | .interp _ =>
      let lineFm : Line × List FuncInfo :=
        match lookupA r.frames fid with
        | none =>
            let fRes :=
              createFunctionEntry st1.funcMap "UNREPORTED" (frameTypeString frameKind)
            (⟨fRes.1 + 1, 0⟩, fRes.2)
        | some fileIDInfo =>
            match lookupA fileIDInfo lineno with
            | none =>
                let fRes :=
                  createFunctionEntry st1.funcMap "UNRESOLVED" (frameTypeString frameKind)
                (⟨fRes.1 + 1, 0⟩, fRes.2)
            | some si =>
                let fRes :=
                  createFunctionEntry st1.funcMap si.functionName si.filePath
                (⟨fRes.1 + 1, si.lineNumber⟩, fRes.2)
      let d := getDummyMappingIndex st1.fileIDtoMapping st1.stringMap st1.mappings fid
      ({ typeIndex := typeIdx, address := lineno, line := [lineFm.1],
         mappingIndex := d.1 + 1 },
       { st1 with funcMap := lineFm.2, stringMap := d.2.2.1,
                  fileIDtoMapping := d.2.1, mappings := d.2.2.2 })

/-- One iteration of the frame loop: encode the `Location` and append it to
`profile.Location`. -/
def encodeFrame (r : ReporterState) (st : EncState) (fr : FrameType × Nat × Nat) :
    EncState :=
  let res := encodeLoc r st fr
  { res.2 with locations := res.2.locations ++ [res.1] }

/-- One iteration of `getProfile`'s sample loop: encode one drained
`(traceHash, sample)` entry.  The three per-frame slices of the trace are
iterated together (they have equal length for well-formed traces). -/
def encodeSample (r : ReporterState) (st : EncState) (e : Nat × Sample) :
    EncState :=
  let trace := (lookupA r.traces e.1).getD {}
  let locationsStartIndex := st.locationIndex
  let sidRes := getStringMapIndex st.stringMap (traceHashString e.1)
  let tsMs := e.2.timestamps.map (fun ts => ts * 1000)
  let se := e.2.timestamps.foldl tsStep (st.startTS, st.endTS)
  let st1 := { st with stringMap := sidRes.2, startTS := se.1, endTS := se.2 }
  let frames := trace.frameTypes.zip (trace.files.zip trace.linenos)
  let st2 := frames.foldl (encodeFrame r) st1
  let labelsRes := getTraceLabels st2.stringMap trace
  let ps : ProfSample :=
    { locationsStartIndex := locationsStartIndex,
      stacktraceIdIndex := sidRes.1,
      timestamps := tsMs,
      value := [Int.ofNat e.2.count],
      label := labelsRes.1,
      locationsLength := trace.frameTypes.length }
  { st2 with stringMap := labelsRes.2,
             profSamples := st2.profSamples ++ [ps],
             locationIndex := st2.locationIndex + trace.frameTypes.length }

/-- The flattening step that turns one `funcMap` key into a
`pprofextended.Function` record (the body of the `for v, idx := range funcMap`
loop of `getProfile`). -/
def funcTableStep (acc : List FunctionRec × List String) (k : FuncInfo) :
    List FunctionRec × List String :=
  let nRes := getStringMapIndex acc.2 k.name
  let fRes := getStringMapIndex nRes.2 k.fileName
  (acc.1 ++ [(⟨nRes.1, fRes.1⟩ : FunctionRec)], fRes.2)

/-- The drained counters that have matching trace-shape information (the
working set `samplesCpy` of `getProfile` after the re-insertion step). -/
def workingSet (r : ReporterState) : List (Nat × Sample) :=
  r.samples.filter (fun e => (lookupA r.traces e.1).isSome)

/-- The initial encoder state of one `getProfile` pass: the string table is
seeded with the empty string (index 0 by specification) and then the
`SampleType`/`PeriodType` strings are interned in source order. -/
def initialEncState : EncState :=
  { stringMap := (getStringMapIndex (getStringMapIndex (getStringMapIndex
      (getStringMapIndex [""] "samples").2 "count").2 "cpu").2 "nanoseconds").2,
    funcMap := [], fileIDtoMapping := [], frameIDtoFunction := [], mappings := [],
    locations := [], profSamples := [], locationIndex := 0, startTS := 0,
    endTS := 0 }

/-- The encoder state after `getProfile`'s sample loop. -/
def encodePass (r : ReporterState) : EncState :=
  (workingSet r).foldl (encodeSample r) initialEncState

/-- Result of `getProfile`: the profile, its start/end timestamps, and the
reporter state after the drain (Go mutates the receiver's sample cache). -/
structure GetProfileResult where
  profile : Profile
  startTS : Nat
  endTS : Nat
  reporter : ReporterState
deriving DecidableEq, Repr

/-- `OTLPReporter.getProfile`: drain the sample cache, re-insert counters
without trace shape, encode the rest into one profile with deduplicated
tables, and flatten the dedup maps into the wire arrays. -/
def getProfile (r : ReporterState) : GetProfileResult :=
  let samplesCpy := r.samples
  let newSamples := samplesCpy.filter (fun e => (lookupA r.traces e.1).isNone)
  let r' := { r with samples := newSamples }
  let sm0 : List String := [""]
  let samplesRes := getStringMapIndex sm0 "samples"
  let countRes := getStringMapIndex samplesRes.2 "count"
  let cpuRes := getStringMapIndex countRes.2 "cpu"
  let nsRes := getStringMapIndex cpuRes.2 "nanoseconds"
  let stF := encodePass r
  let ftAcc := stF.funcMap.foldl funcTableStep (([] : List FunctionRec), stF.stringMap)
  let startNanos : Int := (stF.startTS : Int) * 1000000000
  let endNanos : Int := (stF.endTS : Int) * 1000000000
  let profile : Profile :=
    { sampleType := [⟨samplesRes.1, countRes.1⟩],
      periodType := ⟨cpuRes.1, nsRes.1⟩,
      period := 1000000000 / r.samplesPerSecond,
      sample := stF.profSamples,
      location := stF.locations,
      mapping := stF.mappings,
      function := ftAcc.1,
      stringTable := ftAcc.2,
      locationIndices := List.range stF.locations.length,
      durationNanos := endNanos - startNanos,
      timeNanos := startNanos }
  ⟨profile, stF.startTS, stF.endTS, r'⟩

/-- `OTLPReporter.reportOTLPProfile`: obtain a snapshot; if it has no samples,
return `nil` without any export call (`none` here); otherwise fill in a zero
duration with the report interval and perform the export call with the
resulting profile (`some` here). -/
def reportOTLPProfile (r : ReporterState) (reportIntervalNanos : Int) :
    Option Profile × ReporterState :=
  let res := getProfile r
  if res.profile.sample.length = 0 then (none, res.reporter)
  else
    let profile :=
      if res.profile.durationNanos = 0 then
        { res.profile with durationNanos := reportIntervalNanos }
      else res.profile
    (some profile, res.reporter)

/-! ## Specification apparatus and concrete witness states -/

/-- The timestamps of the drained counters with trace shape, in the order the
encoding pass scans them. -/
def drainedTimestamps (r : ReporterState) : List Nat :=
  ((workingSet r).map (fun e => e.2.timestamps)).flatten

/-- A reporter state with all caches empty. -/
def emptyReporter : ReporterState :=
  { traces := [], samples := [], fallbackSymbols := [], executables := [],
    frames := [], otlpBuildIDMode := "linker", samplesPerSecond := 20 }

/-- An empty encoding state (string table seeded with the empty string). -/
def encEmpty : EncState :=
  { stringMap := [""], funcMap := [], fileIDtoMapping := [],
    frameIDtoFunction := [], mappings := [], locations := [], profSamples := [],
    locationIndex := 0, startTS := 0, endTS := 0 }

/-- Concrete reporter state for the C8 witness: one stored frame with a
non-empty file path. -/
def rC8 : ReporterState :=
  { emptyReporter with frames := [(1, [(2, ⟨10, 0, "f", "a.c"⟩)])] }

/-- Concrete reporter state for the C1 counterexample: one drained sample
(with trace shape) carrying a single timestamp. -/
def rC1cex : ReporterState :=
  { emptyReporter with traces := [(1, {})], samples := [(1, ⟨[5], 1⟩)] }

/-- Concrete reporter state for the C1 witness: one drained sample whose
first scanned timestamp is the minimum. -/
def rC1wit : ReporterState :=
  { emptyReporter with traces := [(1, {})], samples := [(1, ⟨[3, 7], 2⟩)] }

/-- Concrete reporter state for the C6 witness: one fallback symbol for the
kernel frame (7, 9). -/
def rC6 : ReporterState :=
  { emptyReporter with fallbackSymbols := [((7, 9), "sym")] }

/-- Concrete reporter state for the C3 witness: one counter with matching
trace shape (hash 1) and one without (hash 2). -/
def rC3w : ReporterState :=
  { emptyReporter with
    traces := [(1, {})],
    samples := [(1, ⟨[5], 1⟩), (2, ⟨[6], 2⟩)] }

/-! # Theorems -/

/-! ## Association list lemmas -/

@[simp] theorem lookupA_nil {κ ν : Type} [DecidableEq κ] (k : κ) :
    lookupA ([] : List (κ × ν)) k = none := rfl

theorem lookupA_updateA_self {κ ν : Type} [DecidableEq κ]
    (l : List (κ × ν)) (k : κ) (v : ν) : lookupA (updateA l k v) k = some v := by
  induction l with
  | nil => simp [updateA, lookupA]
  | cons e rest ih =>
      by_cases h : e.1 = k
      · simp [updateA, h, lookupA]
      · simp [updateA, h, lookupA, ih]

theorem lookupA_updateA_ne {κ ν : Type} [DecidableEq κ]
    (l : List (κ × ν)) (k k' : κ) (v : ν) (hne : k' ≠ k) :
    lookupA (updateA l k v) k' = lookupA l k' := by
  induction l with
  | nil => simp [updateA, lookupA, Ne.symm hne]
  | cons e rest ih =>
      by_cases h : e.1 = k
      · simp [updateA, h, lookupA, Ne.symm hne]
      · simp [updateA, h, lookupA, ih]

theorem updateA_updateA_self {κ ν : Type} [DecidableEq κ]
    (l : List (κ × ν)) (k : κ) (v v' : ν) :
    updateA (updateA l k v) k v' = updateA l k v' := by
  induction l with
  | nil => simp [updateA]
  | cons e rest ih =>
      by_cases h : e.1 = k
      · simp [updateA, h]
      · simp [updateA, h, ih]

/-! ## LRU lemmas -/

theorem lruGet_lruAdd_self {ν : Type} (l : List (Nat × LruEntry ν))
    (k : Nat) (v : ν) (now : Nat) : lruGet (lruAdd l k v) now k = some v := by
  simp [lruGet, lruAdd, lookupA_updateA_self]

theorem lruGet_lruAddWithLifetime_self {ν : Type} (l : List (Nat × LruEntry ν))
    (k : Nat) (v : ν) (now lifetime t : Nat) :
    lruGet (lruAddWithLifetime l k v now lifetime) t k =
      if t < now + lifetime then some v else none := by
  simp [lruGet, lruAddWithLifetime, lookupA_updateA_self]

/-! ## Dedup-table lemmas (`posOf`, `lookupOrAppend`, `ExtendsL`) -/

theorem extendsL_refl {α : Type} (l : List α) : ExtendsL l l := ⟨[], by simp⟩

theorem extendsL_trans {α : Type} {l1 l2 l3 : List α}
    (h1 : ExtendsL l1 l2) (h2 : ExtendsL l2 l3) : ExtendsL l1 l3 := by
  obtain ⟨t1, rfl⟩ := h1
  obtain ⟨t2, rfl⟩ := h2
  exact ⟨t1 ++ t2, by simp⟩

theorem get?_some_lt {α : Type} {l : List α} {i : Nat} {a : α}
    (h : l.get? i = some a) : i < l.length := by
  by_contra hlt
  rw [List.get?_eq_none.2 (Nat.le_of_not_lt hlt)] at h
  exact Option.noConfusion h

theorem get?_append_left {α : Type} {l : List α} (t : List α) {i : Nat}
    (h : i < l.length) : (l ++ t).get? i = l.get? i := by
  induction l generalizing i with
  | nil => simp at h
  | cons x rest ih =>
      cases i with
      | zero => rfl
      | succ j => exact ih (Nat.lt_of_succ_lt_succ h)

theorem get?_extendsL {α : Type} {l l' : List α} {i : Nat} {a : α}
    (h : ExtendsL l l') (hg : l.get? i = some a) : l'.get? i = some a := by
  obtain ⟨t, rfl⟩ := h
  rw [get?_append_left t (get?_some_lt hg)]
  exact hg

theorem head?_extendsL {α : Type} {l l' : List α}
    (h : ExtendsL l l') (hne : l ≠ []) : l'.head? = l.head? := by
  obtain ⟨t, rfl⟩ := h
  cases l with
  | nil => exact absurd rfl hne
  | cons x rest => rfl

theorem posOf_get {α : Type} [DecidableEq α] {l : List α} {a : α} {i : Nat}
    (h : posOf l a = some i) : l.get? i = some a := by
  induction l generalizing i with
  | nil => simp [posOf] at h
  | cons x rest ih =>
      by_cases hx : x = a
      · simp only [posOf, if_pos hx, Option.some.injEq] at h
        subst h
        simp [List.get?, hx]
      · simp only [posOf, if_neg hx, Option.map_eq_some'] at h
        obtain ⟨j, hj, hji⟩ := h
        subst hji
        exact ih hj

theorem not_mem_of_posOf_none {α : Type} [DecidableEq α] {l : List α} {a : α}
    (h : posOf l a = none) : a ∉ l := by
  induction l with
  | nil => simp
  | cons x rest ih =>
      by_cases hx : x = a
      · simp [posOf, hx] at h
      · simp only [posOf, if_neg hx, Option.map_eq_none'] at h
        simp only [List.mem_cons, not_or]
        exact ⟨fun he => hx he.symm, ih h⟩

theorem posOf_append_of_some {α : Type} [DecidableEq α] {l : List α} {a : α}
    {i : Nat} (t : List α) (h : posOf l a = some i) : posOf (l ++ t) a = some i := by
  induction l generalizing i with
  | nil => simp [posOf] at h
  | cons x rest ih =>
      by_cases hx : x = a
      · simp only [List.cons_append, posOf, if_pos hx] at h ⊢
        exact h
      · simp only [List.cons_append, posOf, if_neg hx, List.append_eq] at h ⊢
        cases hpr : posOf rest a with
        | none => rw [hpr] at h; simp at h
        | some j =>
            rw [hpr] at h
            simp only [Option.map_some', Option.some.injEq] at h
            rw [ih hpr]
            simp [h]

theorem posOf_append_self {α : Type} [DecidableEq α] {l : List α} {a : α}
    (h : posOf l a = none) : posOf (l ++ [a]) a = some l.length := by
  induction l with
  | nil => simp [posOf]
  | cons x rest ih =>
      by_cases hx : x = a
      · simp [posOf, hx] at h
      · simp only [List.cons_append, posOf, if_neg hx, List.append_eq] at h ⊢
        have hr : posOf rest a = none := by
          cases hpr : posOf rest a with
          | none => rfl
          | some j => rw [hpr] at h; simp at h
        rw [ih hr]
        simp [List.length]

theorem lookupOrAppend_ext {α : Type} [DecidableEq α] (l : List α) (a : α) :
    ExtendsL l (lookupOrAppend l a).2 := by
  unfold lookupOrAppend
  cases h : posOf l a with
  | some i => exact extendsL_refl l
  | none => exact ⟨[a], rfl⟩

theorem lookupOrAppend_posOf {α : Type} [DecidableEq α] (l : List α) (a : α) :
    posOf (lookupOrAppend l a).2 a = some (lookupOrAppend l a).1 := by
  unfold lookupOrAppend
  cases h : posOf l a with
  | some i => simpa using h
  | none => simpa using posOf_append_self h

theorem lookupOrAppend_get {α : Type} [DecidableEq α] (l : List α) (a : α) :
    (lookupOrAppend l a).2.get? (lookupOrAppend l a).1 = some a :=
  posOf_get (lookupOrAppend_posOf l a)

theorem lookupOrAppend_nodup {α : Type} [DecidableEq α] {l : List α} (a : α)
    (hn : l.Nodup) : (lookupOrAppend l a).2.Nodup := by
  unfold lookupOrAppend
  cases h : posOf l a with
  | some i => simpa using hn
  | none =>
      simp only
      rw [List.nodup_append]
      exact ⟨hn, List.nodup_singleton a,
        by simpa [List.disjoint_singleton] using not_mem_of_posOf_none h⟩

theorem lookupOrAppend_stable {α : Type} [DecidableEq α] {l l' : List α} {a : α}
    {i : Nat} (h : posOf l a = some i) (hext : ExtendsL l l') :
    lookupOrAppend l' a = (i, l') := by
  obtain ⟨t, rfl⟩ := hext
  unfold lookupOrAppend
  rw [posOf_append_of_some t h]

theorem posOf_extendsL {α : Type} [DecidableEq α] {l l' : List α} {a : α} {i : Nat}
    (hext : ExtendsL l l') (h : posOf l a = some i) : posOf l' a = some i := by
  obtain ⟨t, rfl⟩ := hext
  exact posOf_append_of_some t h

theorem lookupOrAppend_of_posOf {α : Type} [DecidableEq α] {l : List α} {a : α}
    {i : Nat} (h : posOf l a = some i) : lookupOrAppend l a = (i, l) := by
  unfold lookupOrAppend
  rw [h]

theorem option_getD_inj {o1 o2 : Option Nat} (h1 : o1.isSome = true)
    (h2 : o2.isSome = true) (h : o1.getD 0 = o2.getD 0) : o1 = o2 := by
  cases o1 <;> cases o2 <;> simp_all

/-! ## Encoder projection lemmas

The frame encoder never touches the running timestamps, the (dead)
`frameIDtoFunction` map, or the sample array; the sample encoder's
timestamp tracking is exactly a `tsStep` fold. -/

theorem encodeLoc_preserves (r : ReporterState) (st : EncState)
    (fr : FrameType × Nat × Nat) :
    (encodeLoc r st fr).2.startTS = st.startTS
    ∧ (encodeLoc r st fr).2.endTS = st.endTS
    ∧ (encodeLoc r st fr).2.frameIDtoFunction = st.frameIDtoFunction
    ∧ (encodeLoc r st fr).2.profSamples = st.profSamples := by
  obtain ⟨ft, fid, ln⟩ := fr
  cases ft <;> (unfold encodeLoc; dsimp only) <;> (try split) <;>
    exact ⟨rfl, rfl, rfl, rfl⟩

theorem encodeFrame_preserves (r : ReporterState) (st : EncState)
    (fr : FrameType × Nat × Nat) :
    (encodeFrame r st fr).startTS = st.startTS
    ∧ (encodeFrame r st fr).endTS = st.endTS
    ∧ (encodeFrame r st fr).frameIDtoFunction = st.frameIDtoFunction
    ∧ (encodeFrame r st fr).profSamples = st.profSamples := by
  unfold encodeFrame
  dsimp only
  exact encodeLoc_preserves r st fr

theorem foldl_encodeFrame_preserves (r : ReporterState)
    (l : List (FrameType × Nat × Nat)) : ∀ st : EncState,
    ((l.foldl (encodeFrame r) st).startTS = st.startTS
    ∧ (l.foldl (encodeFrame r) st).endTS = st.endTS
    ∧ (l.foldl (encodeFrame r) st).frameIDtoFunction = st.frameIDtoFunction
    ∧ (l.foldl (encodeFrame r) st).profSamples = st.profSamples) := by
  induction l with
  | nil => intro st; exact ⟨rfl, rfl, rfl, rfl⟩
  | cons fr rest ih =>
      intro st
      obtain ⟨h1, h2, h3, h4⟩ := ih (encodeFrame r st fr)
      obtain ⟨g1, g2, g3, g4⟩ := encodeFrame_preserves r st fr
      simp only [List.foldl_cons]
      exact ⟨h1.trans g1, h2.trans g2, h3.trans g3, h4.trans g4⟩

theorem encodeSample_ts (r : ReporterState) (st : EncState) (e : Nat × Sample) :
    ((encodeSample r st e).startTS, (encodeSample r st e).endTS) =
      e.2.timestamps.foldl tsStep (st.startTS, st.endTS) := by
  unfold encodeSample
  dsimp only
  rw [(foldl_encodeFrame_preserves r _ _).1,
      (foldl_encodeFrame_preserves r _ _).2.1]

theorem encodeSample_values (r : ReporterState) (st : EncState) (e : Nat × Sample) :
    (encodeSample r st e).profSamples.map ProfSample.value =
      st.profSamples.map ProfSample.value ++ [[Int.ofNat e.2.count]] := by
  unfold encodeSample
  dsimp only
  rw [List.map_append, (foldl_encodeFrame_preserves r _ _).2.2.2]
  rfl

theorem foldl_encodeSample_values (r : ReporterState) (l : List (Nat × Sample)) :
    ∀ st : EncState,
    ((l.foldl (encodeSample r) st).profSamples).map ProfSample.value =
      st.profSamples.map ProfSample.value ++
        l.map (fun e => [Int.ofNat e.2.count]) := by
  induction l with
  | nil => intro st; simp
  | cons e rest ih =>
      intro st
      simp only [List.foldl_cons, List.map_cons]
      rw [ih, encodeSample_values]
      simp [List.append_assoc]

theorem foldl_encodeSample_ts (r : ReporterState) (l : List (Nat × Sample)) :
    ∀ st : EncState,
    ((l.foldl (encodeSample r) st).startTS, (l.foldl (encodeSample r) st).endTS) =
      ((l.map (fun e => e.2.timestamps)).flatten).foldl tsStep
        (st.startTS, st.endTS) := by
  induction l with
  | nil => intro st; rfl
  | cons e rest ih =>
      intro st
      simp only [List.foldl_cons, List.map_cons, List.flatten_cons,
        List.foldl_append]
      rw [ih (encodeSample r st e), encodeSample_ts]

theorem encodePass_ts (r : ReporterState) :
    ((encodePass r).startTS, (encodePass r).endTS) =
      (drainedTimestamps r).foldl tsStep (0, 0) := by
  unfold encodePass drainedTimestamps
  rw [foldl_encodeSample_ts]
  rfl

/-! ## Timestamp scan lemmas -/

theorem tsFold_fst (l : List Nat) : ∀ s e : Nat, 0 < s → (∀ x ∈ l, 0 < x) →
    (l.foldl tsStep (s, e)).1 = l.foldl Nat.min s := by
  induction l with
  | nil => intro s e _ _; rfl
  | cons a rest ih =>
      intro s e hs hl
      have ha : 0 < a := hl a (List.mem_cons_self a rest)
      have hrest : ∀ x ∈ rest, 0 < x := fun x hx => hl x (List.mem_cons_of_mem a hx)
      simp only [List.foldl_cons]
      by_cases hc : a < s
      · rw [show tsStep (s, e) a = (a, e) from by simp [tsStep, hc],
            show Nat.min s a = a from Nat.min_eq_right (Nat.le_of_lt hc)]
        exact ih a e ha hrest
      · by_cases hd : e < a
        · rw [show tsStep (s, e) a = (s, a) from by simp [tsStep, hc, hs.ne', hd],
              show Nat.min s a = s from Nat.min_eq_left (Nat.le_of_not_lt hc)]
          exact ih s a hs hrest
        · rw [show tsStep (s, e) a = (s, e) from by simp [tsStep, hc, hs.ne', hd],
              show Nat.min s a = s from Nat.min_eq_left (Nat.le_of_not_lt hc)]
          exact ih s e hs hrest

theorem tsFold_snd (l : List Nat) : ∀ s e : Nat, 0 < s → (∀ x ∈ l, s ≤ x) →
    (l.foldl tsStep (s, e)).2 = l.foldl Nat.max e := by
  induction l with
  | nil => intro s e _ _; rfl
  | cons a rest ih =>
      intro s e hs hl
      have ha : s ≤ a := hl a (List.mem_cons_self a rest)
      have hrest : ∀ x ∈ rest, s ≤ x := fun x hx => hl x (List.mem_cons_of_mem a hx)
      have hc : ¬ a < s := Nat.not_lt.mpr ha
      simp only [List.foldl_cons]
      by_cases hd : e < a
      · rw [show tsStep (s, e) a = (s, a) from by simp [tsStep, hc, hs.ne', hd],
            show Nat.max e a = a from Nat.max_eq_right (Nat.le_of_lt hd)]
        exact ih s a hs hrest
      · rw [show tsStep (s, e) a = (s, e) from by simp [tsStep, hc, hs.ne', hd],
            show Nat.max e a = e from Nat.max_eq_left (Nat.le_of_not_lt hd)]
        exact ih s e hs hrest

theorem foldl_max_init (l : List Nat) : ∀ a : Nat,
    l.foldl Nat.max a = Nat.max a (l.foldl Nat.max 0) := by
  induction l with
  | nil => intro a; simp
  | cons x rest ih =>
      intro a
      simp only [List.foldl_cons, Nat.zero_max]
      rw [ih (Nat.max a x), ih x]
      exact Nat.max_assoc a x _

theorem le_foldl_max (l : List Nat) (x : Nat) (hx : x ∈ l) :
    x ≤ l.foldl Nat.max 0 := by
  induction l with
  | nil => simp at hx
  | cons y rest ih =>
      simp only [List.foldl_cons, Nat.zero_max]
      rw [foldl_max_init rest y]
      rcases List.mem_cons.mp hx with h | h
      · subst h
        exact Nat.le_max_left x _
      · exact (ih h).trans (Nat.le_max_right _ _)

/-! ## Dedup-table evolution through the encoder

Every mutation of the string table and the function table during one
encoding pass is a `lookupOrAppend`, so both tables only grow by appending
elements not yet present: `ExtendsL` holds, `Nodup` is preserved, and
previously returned indices stay valid. -/

theorem tables_comp {sm1 sm2 sm3 : List String}
    (h1 : ExtendsL sm1 sm2 ∧ (sm1.Nodup → sm2.Nodup))
    (h2 : ExtendsL sm2 sm3 ∧ (sm2.Nodup → sm3.Nodup)) :
    ExtendsL sm1 sm3 ∧ (sm1.Nodup → sm3.Nodup) :=
  ⟨extendsL_trans h1.1 h2.1, fun hn => h2.2 (h1.2 hn)⟩

theorem getDummyMappingIndex_tables (ftm : List Nat) (sm : List String)
    (mps : List Mapping) (fid : Nat) :
    ExtendsL sm (getDummyMappingIndex ftm sm mps fid).2.2.1
    ∧ (sm.Nodup → (getDummyMappingIndex ftm sm mps fid).2.2.1.Nodup) := by
  unfold getDummyMappingIndex
  cases h : posOf ftm fid with
  | some i => exact ⟨extendsL_refl sm, fun hn => hn⟩
  | none =>
      dsimp only
      exact ⟨extendsL_trans (lookupOrAppend_ext _ _) (lookupOrAppend_ext _ _),
        fun hn => lookupOrAppend_nodup _ (lookupOrAppend_nodup _ hn)⟩

theorem encodeLoc_tables (r : ReporterState) (st : EncState)
    (fr : FrameType × Nat × Nat) :
    ExtendsL st.stringMap (encodeLoc r st fr).2.stringMap
    ∧ (st.stringMap.Nodup → (encodeLoc r st fr).2.stringMap.Nodup)
    ∧ ExtendsL st.funcMap (encodeLoc r st fr).2.funcMap
    ∧ (st.funcMap.Nodup → (encodeLoc r st fr).2.funcMap.Nodup) := by
  obtain ⟨ft, fid, ln⟩ := fr
  cases ft with
  | native =>
      unfold encodeLoc
      dsimp only
      cases hp : posOf st.fileIDtoMapping fid with
      | some i =>
          exact ⟨lookupOrAppend_ext _ _, fun hn => lookupOrAppend_nodup _ hn,
            extendsL_refl _, fun hn => hn⟩
      | none =>
          refine ⟨?_, ?_, extendsL_refl _, fun hn => hn⟩
          · exact extendsL_trans (lookupOrAppend_ext _ _)
              (extendsL_trans (lookupOrAppend_ext _ _) (lookupOrAppend_ext _ _))
          · exact fun hn =>
              lookupOrAppend_nodup _ (lookupOrAppend_nodup _ (lookupOrAppend_nodup _ hn))
  | kernel =>
      unfold encodeLoc
      dsimp only
      cases hk : lookupA st.frameIDtoFunction (fid, ln) with
      | some i =>
          refine ⟨?_, ?_, extendsL_refl _, fun hn => hn⟩
          · exact extendsL_trans (lookupOrAppend_ext _ _)
              (getDummyMappingIndex_tables _ _ _ _).1
          · exact fun hn =>
              (getDummyMappingIndex_tables _ _ _ _).2 (lookupOrAppend_nodup _ hn)
      | none =>
          refine ⟨?_, ?_, lookupOrAppend_ext _ _, fun hn => lookupOrAppend_nodup _ hn⟩
          · exact extendsL_trans (lookupOrAppend_ext _ _)
              (getDummyMappingIndex_tables _ _ _ _).1
          · exact fun hn =>
              (getDummyMappingIndex_tables _ _ _ _).2 (lookupOrAppend_nodup _ hn)
  | abort =>
      unfold encodeLoc
      dsimp only
      exact ⟨lookupOrAppend_ext _ _, fun hn => lookupOrAppend_nodup _ hn,
        extendsL_refl _, fun hn => hn⟩
  | interp kn =>
      unfold encodeLoc
      dsimp only
      cases hf : lookupA r.frames fid with
      | none =>
          dsimp only
          refine ⟨?_, ?_, lookupOrAppend_ext _ _, fun hn => lookupOrAppend_nodup _ hn⟩
          · exact extendsL_trans (lookupOrAppend_ext _ _)
              (getDummyMappingIndex_tables _ _ _ _).1
          · exact fun hn =>
              (getDummyMappingIndex_tables _ _ _ _).2 (lookupOrAppend_nodup _ hn)
      | some info =>
          dsimp only
          cases hsi : lookupA info ln with
          | none =>
              dsimp only
              refine ⟨?_, ?_, lookupOrAppend_ext _ _,
                fun hn => lookupOrAppend_nodup _ hn⟩
              · exact extendsL_trans (lookupOrAppend_ext _ _)
                  (getDummyMappingIndex_tables _ _ _ _).1
              · exact fun hn =>
                  (getDummyMappingIndex_tables _ _ _ _).2 (lookupOrAppend_nodup _ hn)
          | some si =>
              dsimp only
              refine ⟨?_, ?_, lookupOrAppend_ext _ _,
                fun hn => lookupOrAppend_nodup _ hn⟩
              · exact extendsL_trans (lookupOrAppend_ext _ _)
                  (getDummyMappingIndex_tables _ _ _ _).1
              · exact fun hn =>
                  (getDummyMappingIndex_tables _ _ _ _).2 (lookupOrAppend_nodup _ hn)

theorem encodeFrame_tables (r : ReporterState) (st : EncState)
    (fr : FrameType × Nat × Nat) :
    ExtendsL st.stringMap (encodeFrame r st fr).stringMap
    ∧ (st.stringMap.Nodup → (encodeFrame r st fr).stringMap.Nodup)
    ∧ ExtendsL st.funcMap (encodeFrame r st fr).funcMap
    ∧ (st.funcMap.Nodup → (encodeFrame r st fr).funcMap.Nodup) := by
  unfold encodeFrame
  dsimp only
  exact encodeLoc_tables r st fr

theorem foldl_encodeFrame_tables (r : ReporterState)
    (l : List (FrameType × Nat × Nat)) : ∀ st : EncState,
    ExtendsL st.stringMap (l.foldl (encodeFrame r) st).stringMap
    ∧ (st.stringMap.Nodup → (l.foldl (encodeFrame r) st).stringMap.Nodup)
    ∧ ExtendsL st.funcMap (l.foldl (encodeFrame r) st).funcMap
    ∧ (st.funcMap.Nodup → (l.foldl (encodeFrame r) st).funcMap.Nodup) := by
  induction l with
  | nil => intro st; exact ⟨extendsL_refl _, fun hn => hn, extendsL_refl _, fun hn => hn⟩
  | cons fr rest ih =>
      intro st
      obtain ⟨h1, h2, h3, h4⟩ := encodeFrame_tables r st fr
      obtain ⟨g1, g2, g3, g4⟩ := ih (encodeFrame r st fr)
      simp only [List.foldl_cons]
      exact ⟨extendsL_trans h1 g1, fun hn => g2 (h2 hn),
        extendsL_trans h3 g3, fun hn => g4 (h4 hn)⟩

theorem addLabel_tables (acc : List Label × List String) (key value : String) :
    ExtendsL acc.2 (addLabel acc key value).2
    ∧ (acc.2.Nodup → (addLabel acc key value).2.Nodup) := by
  unfold addLabel
  dsimp only
  exact ⟨extendsL_trans (lookupOrAppend_ext _ _) (lookupOrAppend_ext _ _),
    fun hn => lookupOrAppend_nodup _ (lookupOrAppend_nodup _ hn)⟩

theorem cond_addLabel_tables (acc : List Label × List String) (c : Prop)
    [Decidable c] (key value : String) :
    ExtendsL acc.2 (if c then addLabel acc key value else acc).2
    ∧ (acc.2.Nodup → (if c then addLabel acc key value else acc).2.Nodup) := by
  split
  · exact addLabel_tables acc key value
  · exact ⟨extendsL_refl _, fun hn => hn⟩

theorem getTraceLabels_tables (sm : List String) (i : TraceInfo) :
    ExtendsL sm (getTraceLabels sm i).2
    ∧ (sm.Nodup → (getTraceLabels sm i).2.Nodup) := by
  unfold getTraceLabels
  exact tables_comp (tables_comp (tables_comp (tables_comp
    (cond_addLabel_tables _ _ _ _) (cond_addLabel_tables _ _ _ _))
    (cond_addLabel_tables _ _ _ _)) (cond_addLabel_tables _ _ _ _))
    (cond_addLabel_tables _ _ _ _)

theorem encodeSample_tables (r : ReporterState) (st : EncState) (e : Nat × Sample) :
    ExtendsL st.stringMap (encodeSample r st e).stringMap
    ∧ (st.stringMap.Nodup → (encodeSample r st e).stringMap.Nodup)
    ∧ ExtendsL st.funcMap (encodeSample r st e).funcMap
    ∧ (st.funcMap.Nodup → (encodeSample r st e).funcMap.Nodup) := by
  unfold encodeSample
  dsimp only
  refine ⟨?_, ?_, ?_, ?_⟩
  · exact extendsL_trans (lookupOrAppend_ext _ _)
      (extendsL_trans (foldl_encodeFrame_tables r _ _).1 (getTraceLabels_tables _ _).1)
  · exact fun hn => (getTraceLabels_tables _ _).2
      ((foldl_encodeFrame_tables r _ _).2.1 (lookupOrAppend_nodup _ hn))
  · exact (foldl_encodeFrame_tables r _ _).2.2.1
  · exact fun hn => (foldl_encodeFrame_tables r _ _).2.2.2 hn

theorem foldl_encodeSample_tables (r : ReporterState) (l : List (Nat × Sample)) :
    ∀ st : EncState,
    ExtendsL st.stringMap (l.foldl (encodeSample r) st).stringMap
    ∧ (st.stringMap.Nodup → (l.foldl (encodeSample r) st).stringMap.Nodup)
    ∧ ExtendsL st.funcMap (l.foldl (encodeSample r) st).funcMap
    ∧ (st.funcMap.Nodup → (l.foldl (encodeSample r) st).funcMap.Nodup) := by
  induction l with
  | nil => intro st; exact ⟨extendsL_refl _, fun hn => hn, extendsL_refl _, fun hn => hn⟩
  | cons e rest ih =>
      intro st
      obtain ⟨h1, h2, h3, h4⟩ := encodeSample_tables r st e
      obtain ⟨g1, g2, g3, g4⟩ := ih (encodeSample r st e)
      simp only [List.foldl_cons]
      exact ⟨extendsL_trans h1 g1, fun hn => g2 (h2 hn),
        extendsL_trans h3 g3, fun hn => g4 (h4 hn)⟩

theorem funcTableStep_tables (acc : List FunctionRec × List String) (k : FuncInfo) :
    ExtendsL acc.2 (funcTableStep acc k).2
    ∧ (acc.2.Nodup → (funcTableStep acc k).2.Nodup) := by
  unfold funcTableStep
  dsimp only
  exact ⟨extendsL_trans (lookupOrAppend_ext _ _) (lookupOrAppend_ext _ _),
    fun hn => lookupOrAppend_nodup _ (lookupOrAppend_nodup _ hn)⟩

theorem foldl_funcTableStep_tables (ks : List FuncInfo) :
    ∀ acc : List FunctionRec × List String,
    ExtendsL acc.2 (ks.foldl funcTableStep acc).2
    ∧ (acc.2.Nodup → (ks.foldl funcTableStep acc).2.Nodup) := by
  induction ks with
  | nil => intro acc; exact ⟨extendsL_refl _, fun hn => hn⟩
  | cons k rest ih =>
      intro acc
      simp only [List.foldl_cons]
      obtain ⟨h1, h2⟩ := funcTableStep_tables acc k
      obtain ⟨g1, g2⟩ := ih (funcTableStep acc k)
      exact ⟨extendsL_trans h1 g1, fun hn => g2 (h2 hn)⟩

theorem funcTable_fold_spec (ks : List FuncInfo) :
    ∀ acc : List FunctionRec × List String,
    (ks.foldl funcTableStep acc).1 = acc.1 ++ ks.map (fun k =>
      (⟨(posOf (ks.foldl funcTableStep acc).2 k.name).getD 0,
        (posOf (ks.foldl funcTableStep acc).2 k.fileName).getD 0⟩ : FunctionRec))
    ∧ ∀ k ∈ ks, (posOf (ks.foldl funcTableStep acc).2 k.name).isSome = true
        ∧ (posOf (ks.foldl funcTableStep acc).2 k.fileName).isSome = true := by
  induction ks with
  | nil => intro acc; exact ⟨by simp, by simp⟩
  | cons k rest ih =>
      intro acc
      obtain ⟨ih1, ih2⟩ := ih (funcTableStep acc k)
      have hstep1 : posOf (funcTableStep acc k).2 k.name
          = some (lookupOrAppend acc.2 k.name).1 := by
        unfold funcTableStep
        dsimp only
        exact posOf_extendsL (lookupOrAppend_ext _ _) (lookupOrAppend_posOf _ _)
      have hstep2 : posOf (funcTableStep acc k).2 k.fileName
          = some (lookupOrAppend (lookupOrAppend acc.2 k.name).2 k.fileName).1 := by
        unfold funcTableStep
        dsimp only
        exact lookupOrAppend_posOf _ _
      have hext : ExtendsL (funcTableStep acc k).2
          (rest.foldl funcTableStep (funcTableStep acc k)).2 :=
        (foldl_funcTableStep_tables rest _).1
      have hname := posOf_extendsL hext hstep1
      have hfile := posOf_extendsL hext hstep2
      constructor
      · simp only [List.foldl_cons, List.map_cons]
        rw [ih1]
        have hacc1 : (funcTableStep acc k).1 = acc.1 ++
            [(⟨(lookupOrAppend acc.2 k.name).1,
               (lookupOrAppend (lookupOrAppend acc.2 k.name).2 k.fileName).1⟩ :
              FunctionRec)] := rfl
        rw [hacc1, hname, hfile]
        simp [List.append_assoc]
      · intro k' hk'
        rcases List.mem_cons.mp hk' with h | h
        · subst h
          simp only [List.foldl_cons]
          exact ⟨by rw [hname]; rfl, by rw [hfile]; rfl⟩
        · simp only [List.foldl_cons]
          exact ih2 k' h

theorem funcTable_nodup (ks : List FuncInfo) (acc : List FunctionRec × List String)
    (hks : ks.Nodup) (hacc : acc.1 = []) :
    ((ks.foldl funcTableStep acc).1).Nodup := by
  obtain ⟨h1, h2⟩ := funcTable_fold_spec ks acc
  rw [h1, hacc, List.nil_append]
  refine List.Nodup.map_on ?_ hks
  intro x hx y hy hxy
  obtain ⟨hxn, hxf⟩ := h2 x hx
  obtain ⟨hyn, hyf⟩ := h2 y hy
  simp only [FunctionRec.mk.injEq] at hxy
  have hn := option_getD_inj hxn hyn hxy.1
  have hf := option_getD_inj hxf hyf hxy.2
  obtain ⟨i, hi⟩ := Option.isSome_iff_exists.mp hxn
  have hiy : posOf (ks.foldl funcTableStep acc).2 y.name = some i := by
    rw [← hn]; exact hi
  have gx := posOf_get hi
  have gy := posOf_get hiy
  rw [gx] at gy
  obtain ⟨j, hj⟩ := Option.isSome_iff_exists.mp hxf
  have hjy : posOf (ks.foldl funcTableStep acc).2 y.fileName = some j := by
    rw [← hf]; exact hj
  have fx := posOf_get hj
  have fy := posOf_get hjy
  rw [fx] at fy
  cases x with
  | mk xn xf =>
      cases y with
      | mk yn yf =>
          dsimp only at gy fy
          rw [Option.some.injEq] at gy fy
          rw [gy, fy]

/-! ## Claims C5 and C6 -/

/-- C5: in every emitted snapshot the string table and the function table are
injective and minimal: the tables are duplicate-free lists (distinct logical
values at distinct indices, every index `0..len-1` occupied by exactly one
entry, by construction of the flattened-table model), and string-table index
0 holds the empty string. -/
theorem snapshot_tables_injective (r : ReporterState) :
    (getProfile r).profile.stringTable.Nodup
    ∧ (getProfile r).profile.stringTable.head? = some ""
    ∧ (getProfile r).profile.function.Nodup := by
  obtain ⟨hsmE, hsmN, hfmE, hfmN⟩ :=
    foldl_encodeSample_tables r (workingSet r) initialEncState
  have hencN : (encodePass r).stringMap.Nodup := hsmN (by decide)
  have hencH : (encodePass r).stringMap.head? = some "" := by
    show (List.foldl (encodeSample r) initialEncState (workingSet r)).stringMap.head?
      = some ""
    rw [head?_extendsL hsmE (by decide)]
    decide
  have hencNe : (encodePass r).stringMap ≠ [] := by
    intro h
    rw [h] at hencH
    exact Option.noConfusion hencH
  have hfmNod : (encodePass r).funcMap.Nodup := hfmN List.nodup_nil
  obtain ⟨hftE, hftN⟩ := foldl_funcTableStep_tables (encodePass r).funcMap
    (([] : List FunctionRec), (encodePass r).stringMap)
  refine ⟨?_, ?_, ?_⟩
  · show ((encodePass r).funcMap.foldl funcTableStep
        (([] : List FunctionRec), (encodePass r).stringMap)).2.Nodup
    exact hftN hencN
  · show ((encodePass r).funcMap.foldl funcTableStep
        (([] : List FunctionRec), (encodePass r).stringMap)).2.head? = some ""
    rw [head?_extendsL hftE hencNe]
    exact hencH
  · show ((encodePass r).funcMap.foldl funcTableStep
        (([] : List FunctionRec), (encodePass r).stringMap)).1.Nodup
    exact funcTable_nodup _ _ hfmNod rfl

/-- The kernel-frame branch with no `frameIDtoFunction` hit: the emitted
`Line` carries the 1-based index assigned by `createFunctionEntry` to the
frame's fallback symbol under module name `"vmlinux"`, and the function table
afterwards is the lookup-or-append result. -/
theorem encodeLoc_kernel_none_eq (r : ReporterState) (st : EncState)
    (fid lineno : Nat)
    (hfif : lookupA st.frameIDtoFunction (fid, lineno) = none) :
    (encodeLoc r st (FrameType.kernel, fid, lineno)).1.line =
      [⟨(lookupOrAppend st.funcMap
          (⟨(lookupA r.fallbackSymbols (fid, lineno)).getD "UNKNOWN", "vmlinux"⟩ :
            FuncInfo)).1 + 1, 0⟩]
    ∧ (encodeLoc r st (FrameType.kernel, fid, lineno)).2.funcMap =
      (lookupOrAppend st.funcMap
        (⟨(lookupA r.fallbackSymbols (fid, lineno)).getD "UNKNOWN", "vmlinux"⟩ :
          FuncInfo)).2 := by
  unfold encodeLoc
  dsimp only
  rw [hfif]
  exact ⟨rfl, rfl⟩

/-- C6: within one snapshot, a kernel frame whose reconstructed FrameID
`(fileID, lineno)` equals that of a previously encoded kernel frame receives
the same 1-based function-table index in its emitted `Line` record, no matter
which frames were encoded in between.  (The `frameIDtoFunction` map starts
every pass empty and — as in the source — is never written, so the sharing
comes from `createFunctionEntry` deduplicating on (fallback symbol,
"vmlinux").) -/
theorem kernel_frame_function_index_dedup (r : ReporterState) (st : EncState)
    (fid lineno : Nat) (mid : List (FrameType × Nat × Nat))
    (hfif : st.frameIDtoFunction = []) :
    (encodeLoc r (mid.foldl (encodeFrame r)
        (encodeLoc r st (FrameType.kernel, fid, lineno)).2)
      (FrameType.kernel, fid, lineno)).1.line =
    (encodeLoc r st (FrameType.kernel, fid, lineno)).1.line := by
  have h0 : lookupA st.frameIDtoFunction (fid, lineno) = none := by
    rw [hfif]; rfl
  obtain ⟨hline1, hfm1⟩ := encodeLoc_kernel_none_eq r st fid lineno h0
  have hfif1 : (encodeLoc r st (FrameType.kernel, fid, lineno)).2.frameIDtoFunction
      = ([] : List ((Nat × Nat) × Nat)) := by
    rw [(encodeLoc_preserves r st _).2.2.1, hfif]
  have hpos1 : posOf (encodeLoc r st (FrameType.kernel, fid, lineno)).2.funcMap
      (⟨(lookupA r.fallbackSymbols (fid, lineno)).getD "UNKNOWN", "vmlinux"⟩ :
        FuncInfo) = some (lookupOrAppend st.funcMap
      (⟨(lookupA r.fallbackSymbols (fid, lineno)).getD "UNKNOWN", "vmlinux"⟩ :
        FuncInfo)).1 := by
    rw [hfm1]
    exact lookupOrAppend_posOf _ _
  have hfifM : (mid.foldl (encodeFrame r)
      (encodeLoc r st (FrameType.kernel, fid, lineno)).2).frameIDtoFunction
      = ([] : List ((Nat × Nat) × Nat)) := by
    rw [(foldl_encodeFrame_preserves r mid _).2.2.1]
    exact hfif1
  have hposM := posOf_extendsL (foldl_encodeFrame_tables r mid _).2.2.1 hpos1
  have h0M : lookupA (mid.foldl (encodeFrame r)
      (encodeLoc r st (FrameType.kernel, fid, lineno)).2).frameIDtoFunction
      (fid, lineno) = none := by
    rw [hfifM]; rfl
  obtain ⟨hline2, _⟩ := encodeLoc_kernel_none_eq r _ fid lineno h0M
  rw [hline1, hline2, lookupOrAppend_of_posOf hposM]

/-- Witness for C6: the same kernel frame (7, 9) encoded before and after an
unrelated native frame keeps its function-table index. -/
theorem kernel_frame_function_index_dedup_witness :
    (encodeLoc rC6 ([(FrameType.native, 3, 16)].foldl (encodeFrame rC6)
        (encodeLoc rC6 encEmpty (FrameType.kernel, 7, 9)).2)
      (FrameType.kernel, 7, 9)).1.line =
    (encodeLoc rC6 encEmpty (FrameType.kernel, 7, 9)).1.line :=
  kernel_frame_function_index_dedup rC6 encEmpty 7 9 [(FrameType.native, 3, 16)] rfl

/-! ## Filter lemmas for the drain -/

theorem lookupA_filter_none {κ ν : Type} [DecidableEq κ] (l : List (κ × ν))
    (p : κ × ν → Bool) (k : κ) (hp : ∀ v, p (k, v) = false) :
    lookupA (l.filter p) k = none := by
  induction l with
  | nil => rfl
  | cons e rest ih =>
      by_cases hpe : p e = true
      · rw [List.filter_cons_of_pos hpe]
        have hk : e.1 ≠ k := by
          intro hk
          have he := hp e.2
          rw [← hk, Prod.mk.eta, hpe] at he
          exact Bool.noConfusion he
        simp [lookupA, hk, ih]
      · rw [List.filter_cons_of_neg (by simpa using hpe)]
        exact ih

theorem lookupA_filter_same {κ ν : Type} [DecidableEq κ] (l : List (κ × ν))
    (p : κ × ν → Bool) (k : κ) (hp : ∀ v, p (k, v) = true) :
    lookupA (l.filter p) k = lookupA l k := by
  induction l with
  | nil => rfl
  | cons e rest ih =>
      by_cases hk : e.1 = k
      · have hpe : p e = true := by
          rw [show e = (e.1, e.2) from rfl, hk]
          exact hp e.2
        rw [List.filter_cons_of_pos hpe]
        simp [lookupA, hk]
      · by_cases hpe : p e = true
        · rw [List.filter_cons_of_pos hpe]
          simp [lookupA, hk, ih]
        · rw [List.filter_cons_of_neg (by simpa using hpe)]
          simp [lookupA, hk, ih]

/-! ## Claims C3 and C1 -/

/-- C3: in every `getProfile` round, the samples cache afterwards holds
exactly the drained counters without matching trace shape, unchanged (same
count, same timestamp list); the emitted samples are, in scan order, exactly
one per drained counter *with* matching shape, each carrying that counter's
accumulated count as its single value.  Consequently a counter with shape is
absent from the cache afterwards, and one without shape is looked up
unchanged and contributed no emitted sample. -/
theorem drain_exactly_once (r : ReporterState) :
    (getProfile r).reporter.samples =
      r.samples.filter (fun e => (lookupA r.traces e.1).isNone)
    ∧ (getProfile r).profile.sample.map ProfSample.value =
      (r.samples.filter (fun e => (lookupA r.traces e.1).isSome)).map
        (fun e => [Int.ofNat e.2.count])
    ∧ (∀ h, (lookupA r.traces h).isSome = true →
        lookupA (getProfile r).reporter.samples h = none)
    ∧ (∀ h, lookupA r.traces h = none →
        lookupA (getProfile r).reporter.samples h = lookupA r.samples h) := by
  refine ⟨rfl, ?_, ?_, ?_⟩
  · show ((workingSet r).foldl (encodeSample r)
        initialEncState).profSamples.map ProfSample.value = _
    rw [foldl_encodeSample_values]
    rfl
  · intro h hs
    refine lookupA_filter_none _ _ _ (fun v => ?_)
    cases hx : lookupA r.traces h with
    | none => rw [hx] at hs; exact Bool.noConfusion hs
    | some _ => simp [hx]
  · intro h hn
    refine lookupA_filter_same _ _ _ (fun v => ?_)
    simp [hn]

/-- Witness for C3: hash 1 has shape (drained and emitted with value 1),
hash 2 does not (re-inserted unchanged, not emitted). -/
theorem drain_exactly_once_witness :
    lookupA (getProfile rC3w).reporter.samples 1 = none
    ∧ lookupA (getProfile rC3w).reporter.samples 2 = lookupA rC3w.samples 2
    ∧ (getProfile rC3w).profile.sample.map ProfSample.value = [[1]] := by
  obtain ⟨h1, h2, h3, h4⟩ := drain_exactly_once rC3w
  refine ⟨h3 1 (by decide), h4 2 (by decide), ?_⟩
  rw [h2]
  decide

/-- C1 counterexample: with one emitted sample holding the single timestamp 5,
`getProfile` returns end timestamp 0, not the maximum (5) of the observed
per-sample timestamps — the running max is only updated on the
early-`continue`-free path, which a new running minimum (here: the first
timestamp) never reaches.  The claim "the returned end timestamp equals the
maximum" is therefore false as stated. -/
theorem snapshot_ts_endTS_cex :
    drainedTimestamps rC1cex = [5]
    ∧ (getProfile rC1cex).profile.sample.length = 1
    ∧ (getProfile rC1cex).startTS = 5
    ∧ (getProfile rC1cex).endTS = 0
    ∧ (getProfile rC1cex).endTS ≠ (drainedTimestamps rC1cex).foldl Nat.max 0 := by
  decide

/-- C1 (amended): over the drained timestamps in scan order `t :: rest` (all
non-zero), the returned start timestamp is the minimum of all scanned
timestamps; the returned end timestamp equals the maximum whenever the first
scanned timestamp is the global minimum and at least one more timestamp
follows (in general — e.g. for a single timestamp — the end timestamp can
stay 0, as the counterexample shows). -/
theorem snapshot_ts_amended (r : ReporterState) (t : Nat) (rest : List Nat)
    (hscan : drainedTimestamps r = t :: rest)
    (hpos : ∀ x ∈ t :: rest, 0 < x) :
    (getProfile r).startTS = rest.foldl Nat.min t
    ∧ (rest ≠ [] → (∀ x ∈ rest, t ≤ x) →
        (getProfile r).endTS = (t :: rest).foldl Nat.max 0) := by
  have hb : ((getProfile r).startTS, (getProfile r).endTS) =
      (drainedTimestamps r).foldl tsStep (0, 0) := encodePass_ts r
  rw [hscan] at hb
  have hstep : tsStep (0, 0) t = (t, 0) := by simp [tsStep]
  rw [List.foldl_cons, hstep] at hb
  have hfst := congrArg Prod.fst hb
  have hsnd := congrArg Prod.snd hb
  dsimp only at hfst hsnd
  have ht : 0 < t := hpos t (List.mem_cons_self t rest)
  have hrestpos : ∀ x ∈ rest, 0 < x := fun x hx => hpos x (List.mem_cons_of_mem t hx)
  constructor
  · rw [hfst, tsFold_fst rest t 0 ht hrestpos]
  · intro hne hle
    rw [hsnd, tsFold_snd rest t 0 ht hle, List.foldl_cons,
        (by simp : Nat.max 0 t = t), foldl_max_init rest t]
    obtain ⟨y, ys, rfl⟩ : ∃ y ys, rest = y :: ys := by
      cases rest with
      | nil => exact absurd rfl hne
      | cons y ys => exact ⟨y, ys, rfl⟩
    have hty : t ≤ y := hle y (List.mem_cons_self y ys)
    have hyM : y ≤ (y :: ys).foldl Nat.max 0 := le_foldl_max _ y (List.mem_cons_self y ys)
    exact (Nat.max_eq_right (hty.trans hyM)).symm

/-- Witness for the amended C1: scan order `[3, 7]` — start is the minimum 3
and, the first timestamp being the minimum, end is the maximum 7. -/
theorem snapshot_ts_amended_witness :
    (getProfile rC1wit).startTS = 3 ∧ (getProfile rC1wit).endTS = 7 := by
  obtain ⟨h1, h2⟩ := snapshot_ts_amended rC1wit 3 [7] (by decide) (by decide)
  constructor
  · rw [h1]; decide
  · rw [h2 (by decide) (by decide)]; decide

/-! ## Claims C9 and C10 -/

/-- C9: whenever the snapshot returned by `getProfile` has an empty sample
list, `reportOTLPProfile` returns `nil` (modelled as `none`) without
performing the export call. -/
theorem report_skips_empty_snapshot (r : ReporterState) (iv : Int)
    (h : (getProfile r).profile.sample = []) :
    (reportOTLPProfile r iv).1 = none := by
  simp [reportOTLPProfile, h]

/-- Witness for C9 at the empty reporter state. -/
theorem report_skips_empty_snapshot_witness :
    (reportOTLPProfile emptyReporter 1000000000).1 = none :=
  report_skips_empty_snapshot emptyReporter 1000000000 rfl

/-- C10: in `"linker"` build-ID mode, a native frame whose FileID has no
executables-cache entry and no mapping yet gets a fresh mapping whose file
name is the sentinel `"UNKNOWN"` but whose build ID is the *empty* string
(the zero-value `execInfo` overwrites the `"UNKNOWN"` default), with the
linker build-ID kind — so the two sentinels differ. -/
theorem native_unknown_exec_linker_mapping (r : ReporterState) (st : EncState)
    (fid lineno : Nat)
    (hmode : r.otlpBuildIDMode = "linker")
    (hexec : lookupA r.executables fid = none)
    (hnew : posOf st.fileIDtoMapping fid = none) :
    ∃ m, (encodeLoc r st (FrameType.native, fid, lineno)).2.mappings =
        st.mappings ++ [m]
      ∧ (encodeLoc r st (FrameType.native, fid, lineno)).2.stringMap.get? m.filename
          = some "UNKNOWN"
      ∧ (encodeLoc r st (FrameType.native, fid, lineno)).2.stringMap.get? m.buildId
          = some ""
      ∧ m.buildIdKind = BuildIdKind.linker
      ∧ m.filename ≠ m.buildId := by
  have hg1 : (getStringMapIndex (getStringMapIndex
      (getStringMapIndex st.stringMap "native").2 "UNKNOWN").2 "").2.get?
      (getStringMapIndex (getStringMapIndex st.stringMap "native").2 "UNKNOWN").1
      = some "UNKNOWN" :=
    get?_extendsL (lookupOrAppend_ext _ _) (lookupOrAppend_get _ _)
  have hg2 : (getStringMapIndex (getStringMapIndex
      (getStringMapIndex st.stringMap "native").2 "UNKNOWN").2 "").2.get?
      (getStringMapIndex (getStringMapIndex
        (getStringMapIndex st.stringMap "native").2 "UNKNOWN").2 "").1
      = some "" :=
    lookupOrAppend_get _ _
  have henc : (encodeLoc r st (FrameType.native, fid, lineno)).2 =
      { st with
        stringMap := (getStringMapIndex (getStringMapIndex
          (getStringMapIndex st.stringMap "native").2 "UNKNOWN").2 "").2,
        fileIDtoMapping := st.fileIDtoMapping ++ [fid],
        mappings := st.mappings ++ [⟨lineno,
          (getStringMapIndex (getStringMapIndex st.stringMap "native").2 "UNKNOWN").1,
          (getStringMapIndex (getStringMapIndex
            (getStringMapIndex st.stringMap "native").2 "UNKNOWN").2 "").1,
          BuildIdKind.linker⟩] } := by
    simp [encodeLoc, hnew, hexec, hmode, frameTypeString]
  refine ⟨⟨lineno,
      (getStringMapIndex (getStringMapIndex st.stringMap "native").2 "UNKNOWN").1,
      (getStringMapIndex (getStringMapIndex
        (getStringMapIndex st.stringMap "native").2 "UNKNOWN").2 "").1,
      BuildIdKind.linker⟩, ?_, ?_, ?_, rfl, ?_⟩
  · rw [henc]
  · rw [henc]; exact hg1
  · rw [henc]; exact hg2
  · intro heq
    simp only at heq
    rw [heq] at hg1
    rw [hg2] at hg1
    exact (by decide : ("" : String) ≠ "UNKNOWN") (Option.some.inj hg1)

/-- Witness for C10 at a concrete frame in a fresh encoding state. -/
theorem native_unknown_exec_linker_mapping_witness :
    ∃ m, (encodeLoc emptyReporter encEmpty (FrameType.native, 5, 4096)).2.mappings =
        encEmpty.mappings ++ [m]
      ∧ (encodeLoc emptyReporter encEmpty
          (FrameType.native, 5, 4096)).2.stringMap.get? m.filename = some "UNKNOWN"
      ∧ (encodeLoc emptyReporter encEmpty
          (FrameType.native, 5, 4096)).2.stringMap.get? m.buildId = some ""
      ∧ m.buildIdKind = BuildIdKind.linker
      ∧ m.filename ≠ m.buildId :=
  native_unknown_exec_linker_mapping emptyReporter encEmpty 5 4096 rfl rfl rfl

/-! ## Claims C2 and C7 -/

/-- C2 (code bug): the claim states that after an upload attempt concludes the
in-flight marker is cleared, so a later `Upload` for that FileID with a
non-empty buildID and no (unexpired) retry state performs a fresh authorize
call.  The code clears the marker only by writing `false` into the
`singleflight` cache (`defer u.singleflight.Add(fileID, false)`), but the gate
in `Upload` is `if ok || singleflight { return }`, which fires whenever the
entry merely *exists* — even with value `false`.  So after one concluded
attempt (here: one whose authorize call failed with a transport error, leaving
`retry` untouched), a later `Upload` is a no-op even though the marker was
"cleared" and no retry state blocks it.  This theorem evaluates the model at
that failing input: the second call returns `noop` although the in-flight
marker holds `false` and the retry cache has no entry. -/
theorem upload_after_concluded_attempt_is_noop :
    (Upload (concludeAttempt (Upload uploaderEmpty 0 1 "abc").1 1) 600 1 "abc").2 =
      UploadCallResult.noop
    ∧ lruGet (concludeAttempt (Upload uploaderEmpty 0 1 "abc").1 1).singleflight 600 1 =
      some false
    ∧ lruGet (concludeAttempt (Upload uploaderEmpty 0 1 "abc").1 1).retry 600 1 = none := by
  decide

/-- C7: when the authorize step denies the upload, `attemptUpload` records a
retry state and the attempt performs no further remote call: for the exact
`ReasonUploadInProgress` reason it records a cooldown entry with a fixed
five-minute lifetime (present until `now + fiveMinutes`, absent afterwards);
for any other reason it records a durable no-retry entry with no expiry. -/
theorem attemptUpload_authorize_denied (st : UploaderState) (now fileID : Nat)
    (resp : ShouldInitiateUploadResponse) (hdeny : resp.shouldInitiateUpload = false) :
    (resp.reason = ReasonUploadInProgress →
      attemptUploadAuthorize st now fileID resp =
        ({ st with retry := lruAddWithLifetime st.retry fileID false now fiveMinutes },
          AuthStep.recordedCooldown)
      ∧ ∀ t, lruGet (lruAddWithLifetime st.retry fileID false now fiveMinutes) t fileID =
          if t < now + fiveMinutes then some false else none)
    ∧ (resp.reason ≠ ReasonUploadInProgress →
      attemptUploadAuthorize st now fileID resp =
        ({ st with retry := lruAdd st.retry fileID false }, AuthStep.recordedNoRetry)
      ∧ ∀ t, lruGet (lruAdd st.retry fileID false) t fileID = some false) := by
  constructor
  · intro hr
    refine ⟨by simp [attemptUploadAuthorize, hdeny, hr], fun t => ?_⟩
    rw [lruGet_lruAddWithLifetime_self]
  · intro hr
    refine ⟨by simp [attemptUploadAuthorize, hdeny, hr], fun t => ?_⟩
    rw [lruGet_lruAdd_self]

/-- Witness for C7 at a concrete denied authorize response. -/
theorem attemptUpload_authorize_denied_witness :
    attemptUploadAuthorize uploaderEmpty 0 1 ⟨false, ReasonUploadInProgress⟩ =
      ({ uploaderEmpty with
          retry := lruAddWithLifetime uploaderEmpty.retry 1 false 0 fiveMinutes },
        AuthStep.recordedCooldown) :=
  ((attemptUpload_authorize_denied uploaderEmpty 0 1 ⟨false, ReasonUploadInProgress⟩
      rfl).1 rfl).1

/-! ## Claims C4 and C8 -/

/-- C4: `ReportFramesForTrace` and `ReportCountForTrace` commute on the same
hash: applying both in either order yields the same reporter state, and the
stored `traceInfo` is the field-wise union — shape fields from the
`ReportFramesForTrace` call, label fields from the `ReportCountForTrace` call
(the `apmServiceName` field, set by neither, keeps its prior value). -/
theorem report_shape_count_commute (r : ReporterState) (hash : Nat)
    (files linenos : List Nat) (frameTypes : List FrameType)
    (timestamp count : Nat) (comm podName podNamespace containerName : String) :
    ReportCountForTrace (ReportFramesForTrace r hash files linenos frameTypes)
        hash timestamp count comm podName podNamespace containerName =
      ReportFramesForTrace (ReportCountForTrace r hash timestamp count comm
        podName podNamespace containerName) hash files linenos frameTypes
    ∧ lookupA (ReportCountForTrace (ReportFramesForTrace r hash files linenos
        frameTypes) hash timestamp count comm podName podNamespace
        containerName).traces hash =
      some { files := files, linenos := linenos, frameTypes := frameTypes,
             comm := comm, podName := podName, podNamespace := podNamespace,
             containerName := containerName,
             apmServiceName :=
               ((lookupA r.traces hash).map TraceInfo.apmServiceName).getD "" } := by
  cases hv : lookupA r.traces hash with
  | some v =>
      constructor
      · simp [ReportFramesForTrace, ReportCountForTrace, hv,
              lookupA_updateA_self, updateA_updateA_self]
      · simp [ReportFramesForTrace, ReportCountForTrace, hv,
              lookupA_updateA_self, updateA_updateA_self]
  | none =>
      constructor
      · simp [ReportFramesForTrace, ReportCountForTrace, hv,
              lookupA_updateA_self, updateA_updateA_self]
      · simp [ReportFramesForTrace, ReportCountForTrace, hv,
              lookupA_updateA_self, updateA_updateA_self]

/-- C8: once a non-empty file path is stored for `(fileID, addr)`, no later
`FrameMetadata` call — with any arguments, in particular one with an empty
incoming file path — leaves an empty file path stored there. -/
theorem frameMetadata_preserves_nonempty_path (r : ReporterState)
    (fileID addr : Nat) (p : String)
    (hstored : storedFilePath r fileID addr = some p) (hne : p ≠ "")
    (fid' addr' line off : Nat) (fname fpath : String) :
    ∃ q, storedFilePath (FrameMetadata r fid' addr' line off fname fpath)
        fileID addr = some q ∧ q ≠ "" := by
  obtain ⟨v, hv, s, hs, hp⟩ : ∃ v, lookupA r.frames fileID = some v ∧
      ∃ s, lookupA v addr = some s ∧ s.filePath = p := by
    unfold storedFilePath at hstored
    cases hv : lookupA r.frames fileID with
    | none => rw [hv] at hstored; simp at hstored
    | some v =>
        rw [hv] at hstored
        cases hs : lookupA v addr with
        | none => simp [hs] at hstored
        | some s =>
            simp only [hs, Option.some_bind, Option.map_some', Option.some.injEq]
              at hstored
            exact ⟨v, rfl, s, hs, hstored⟩
  by_cases hfid : fid' = fileID
  · subst hfid
    by_cases haddr : addr' = addr
    · subst haddr
      by_cases hfp : fpath = ""
      · refine ⟨p, ?_, hne⟩
        simp [FrameMetadata, hv, hs, hfp, hp, storedFilePath, lookupA_updateA_self]
      · refine ⟨fpath, ?_, hfp⟩
        simp [FrameMetadata, hv, hfp, storedFilePath, lookupA_updateA_self]
    · refine ⟨p, ?_, hne⟩
      simp [FrameMetadata, hv, storedFilePath, lookupA_updateA_self,
            lookupA_updateA_ne _ _ _ _ (Ne.symm haddr), hs, hp]
  · refine ⟨p, ?_, hne⟩
    cases hv' : lookupA r.frames fid' <;>
      simp [FrameMetadata, hv', storedFilePath,
            lookupA_updateA_ne _ _ _ _ (Ne.symm hfid), hv, hs, hp]

/-- Witness for C8: a later call with an empty incoming file path leaves the
stored path non-empty. -/
theorem frameMetadata_preserves_nonempty_path_witness :
    ∃ q, storedFilePath (FrameMetadata rC8 1 2 11 0 "g" "") 1 2 = some q ∧ q ≠ "" :=
  frameMetadata_preserves_nonempty_path rC8 1 2 "a.c" (by decide) (by decide)
    1 2 11 0 "g" ""

end OtelAgent
